import Mathlib

/-!
A verification development for the `opinion` news front-end.

The definitions below are a shallow embedding of the TypeScript sources:
`src/services/news.ts` (CSV parsing and feed ingestion),
`src/app/page.tsx` (date normalization, sorting, partitioning) and
`src/components/news-article-card.tsx` (image fallback state).
Strings are Lean `String`s, JavaScript `undefined`-able values are
`Option`s, and the fetch/catch control flow of `getNews` is made explicit
by a `FetchResult` argument.
-/

namespace Opinion

/-- Embedding of JavaScript `String.prototype.trim` on character lists:
drop whitespace from the front, then from the back. -/
def trimChars (cs : List Char) : List Char :=
  (cs.dropWhile Char.isWhitespace).rdropWhile Char.isWhitespace

/-- Embedding of JavaScript `String.prototype.trim`. -/
def jsTrim (s : String) : String :=
  ⟨trimChars s.data⟩

/-- The character-scan loop of `parseCSV` over one line
(`src/services/news.ts`, lines 38-58).  `cur` is the accumulated current
field and `q` the `inQuotes` flag.  A quote immediately followed by a
second quote appends one literal quote and skips the second (the code
checks `line[i+1] === '"'` before looking at `inQuotes`); any other quote
toggles the flag; a comma outside quotes ends the current field (trimmed);
every other character is appended to the current field.  At end of line
the accumulated field is emitted, trimmed. -/
def scanLine : List Char → List Char → Bool → List String
  | [], cur, _ => [jsTrim ⟨cur⟩]
  | '"' :: '"' :: rest, cur, q => scanLine rest (cur ++ ['"']) q
  | '"' :: rest, cur, q => scanLine rest cur (!q)
  | ',' :: rest, cur, false => jsTrim ⟨cur⟩ :: scanLine rest [] false
  | c :: rest, cur, q => scanLine rest (cur ++ [c]) q

/-- JavaScript `text.split('\n')` on a character list: the list of lines
between newline characters.  An input without a newline, the empty input
included, is one line. -/
def splitLines : List Char → List (List Char)
  | [] => [[]]
  | '\n' :: rest => [] :: splitLines rest
  | c :: rest =>
    match splitLines rest with
    | [] => [[c]]
    | l :: ls => (c :: l) :: ls

/-- Embedding of `parseCSV` (`src/services/news.ts`, lines 37-60):
trim the text, split it on newlines, and scan each line independently
with an empty current field and the quote flag `false`. -/
def parseCSV (csvText : String) : List (List String) :=
  (splitLines (trimChars csvText.data)).map (fun line => scanLine line [] false)

/-- Embedding of the `NewsArticle` interface of `src/services/news.ts`.
The possibly-`undefined` `date` is an `Option`. -/
structure NewsArticle where
  title : String
  summary : String
  url : String
  source : String
  category : String
  imageUrl : String
  date : Option String
deriving DecidableEq, Repr

/-- JavaScript `row[i]` on an array of strings: out-of-range reads give
`undefined`, which every use in `getNews` (`row[i] || default`, truthiness
tests) treats exactly like the empty string, so both are modelled as `""`. -/
def rowGet (row : List String) (i : Nat) : String :=
  row.getD i ""

/-- The article built from one CSV data row by `getNews`
(`src/services/news.ts`, lines 88-96): fixed column positions 0..5 are
title, date, imageUrl, summary, url, source, with the code's `||`
defaults and the constant category. -/
def rowToArticle (row : List String) : NewsArticle :=
  { title := if rowGet row 0 = "" then "No Title" else rowGet row 0,
    summary := if rowGet row 3 = "" then "No Summary" else rowGet row 3,
    url := if rowGet row 4 = "" then "#" else rowGet row 4,
    source := if rowGet row 5 = "" then "Unknown Source" else rowGet row 5,
    category := "General",
    imageUrl := rowGet row 2,
    date := if rowGet row 1 = "" then none else some (rowGet row 1) }

/-- The row-to-article pass of `getNews` (`src/services/news.ts`, lines
82-105): drop the header row unconditionally, then keep a row exactly when
the JavaScript truthiness test `row[0] && row[4]` passes, i.e. when the
fields at positions 0 and 4 are non-empty; a failing row only produces a
`console.warn` (no output, no error). -/
def rowsToArticles (rows : List (List String)) : List NewsArticle :=
  (rows.drop 1).filterMap (fun row =>
    if rowGet row 0 ≠ "" ∧ rowGet row 4 ≠ "" then some (rowToArticle row) else none)

/-- The observable outcome of `fetch(csvUrl)` in `getNews`: a thrown
network error, or a response with its `ok` flag and body text. -/
inductive FetchResult where
  | networkError
  | response (ok : Bool) (body : String)
deriving DecidableEq, Repr

/-- Embedding of `getNews` (`src/services/news.ts`, lines 69-111) as a
function of the fetch outcome.  A thrown fetch error and a non-`ok`
response both land in the `catch` block, which returns `[]`; a successful
response is parsed with `parseCSV` and mapped to articles. -/
def getNews : FetchResult → List NewsArticle
  | .networkError => []
  | .response ok body => if ok then rowsToArticles (parseCSV body) else []

/-- A parsed calendar instant: the observable fields of a valid JavaScript
`Date`.  Every date string in this system is parsed within one time frame,
so instants are compared by their calendar fields. -/
structure Instant where
  year : Nat
  month : Nat
  day : Nat
  hour : Nat
  minute : Nat
  second : Nat
deriving DecidableEq, Repr

/-- Gregorian leap-year rule. -/
def isLeapYear (y : Nat) : Bool :=
  (y % 4 == 0 && !(y % 100 == 0)) || y % 400 == 0

/-- Days in month `m` of year `y`. -/
def daysInMonth (y m : Nat) : Nat :=
  if m = 2 then (if isLeapYear y then 29 else 28)
  else if m = 4 ∨ m = 6 ∨ m = 9 ∨ m = 11 then 30
  else 31

/-- Numeric value of a decimal digit character. -/
def digitVal (c : Char) : Nat :=
  c.toNat - 48

/-- The number named by a list of decimal digit characters. -/
def digitsToNat (cs : List Char) : Nat :=
  cs.foldl (fun n c => n * 10 + digitVal c) 0

/-- Whether year/month/day name a real calendar date. -/
def validYmd (y m d : Nat) : Bool :=
  decide (1 ≤ m ∧ m ≤ 12 ∧ 1 ≤ d ∧ d ≤ daysInMonth y m)

/-- Model of date-fns `parse(s, 'M/d/yyyy', new Date())`: a one-or-two
digit month, a slash, a one-or-two digit day, a slash, an exactly
four-digit year, nothing else; the attempt fails (`Invalid Date`) unless
the fields name a real calendar date.  A success is midnight of that
day. -/
def parseMdy (s : String) : Option Instant :=
  let cs := s.data
  let ms := cs.takeWhile Char.isDigit
  match cs.dropWhile Char.isDigit with
  | '/' :: r2 =>
    let ds := r2.takeWhile Char.isDigit
    match r2.dropWhile Char.isDigit with
    | '/' :: r4 =>
      let ys := r4.takeWhile Char.isDigit
      if r4.dropWhile Char.isDigit = [] ∧ 1 ≤ ms.length ∧ ms.length ≤ 2 ∧
          1 ≤ ds.length ∧ ds.length ≤ 2 ∧ ys.length = 4 ∧
          validYmd (digitsToNat ys) (digitsToNat ms) (digitsToNat ds) = true then
        some ⟨digitsToNat ys, digitsToNat ms, digitsToNat ds, 0, 0, 0⟩
      else none
    | _ => none
  | _ => none

/-- Model of date-fns `parse(s, 'yyyy-MM-dd', new Date())`: exactly four
digits, a dash, two digits, a dash, two digits, nothing else, naming a
real calendar date.  A success is midnight of that day. -/
def parseYmd (s : String) : Option Instant :=
  match s.data with
  | [y1, y2, y3, y4, '-', m1, m2, '-', d1, d2] =>
    if ([y1, y2, y3, y4, m1, m2, d1, d2].all Char.isDigit) ∧
        validYmd (digitsToNat [y1, y2, y3, y4]) (digitsToNat [m1, m2])
          (digitsToNat [d1, d2]) = true then
      some ⟨digitsToNat [y1, y2, y3, y4], digitsToNat [m1, m2],
        digitsToNat [d1, d2], 0, 0, 0⟩
    else none
  | _ => none

/-- An `HH:mm:ss` time of day. -/
def parseTime : List Char → Option (Nat × Nat × Nat)
  | [h1, h2, ':', m1, m2, ':', s1, s2] =>
    if ([h1, h2, m1, m2, s1, s2].all Char.isDigit) ∧ digitsToNat [h1, h2] ≤ 23 ∧
        digitsToNat [m1, m2] ≤ 59 ∧ digitsToNat [s1, s2] ≤ 59 then
      some (digitsToNat [h1, h2], digitsToNat [m1, m2], digitsToNat [s1, s2])
    else none
  | _ => none

/-- Model of the JavaScript `Date` constructor on a string
(`new Date(dateString)`), the normalizer's third attempt, for the shapes
this feed carries: a `yyyy-MM-dd` date naming a real calendar day,
optionally followed by an `HH:mm:ss` time after a space or a `T`.  Any
other text gives `Invalid Date`, modelled as `none`. -/
def parseFreeform (s : String) : Option Instant :=
  match s.data with
  | y1 :: y2 :: y3 :: y4 :: '-' :: m1 :: m2 :: '-' :: d1 :: d2 :: rest =>
    if ([y1, y2, y3, y4, m1, m2, d1, d2].all Char.isDigit) ∧
        validYmd (digitsToNat [y1, y2, y3, y4]) (digitsToNat [m1, m2])
          (digitsToNat [d1, d2]) = true then
      match rest with
      | [] => some ⟨digitsToNat [y1, y2, y3, y4], digitsToNat [m1, m2],
          digitsToNat [d1, d2], 0, 0, 0⟩
      | ' ' :: t => (parseTime t).map (fun hms =>
          ⟨digitsToNat [y1, y2, y3, y4], digitsToNat [m1, m2],
            digitsToNat [d1, d2], hms.1, hms.2.1, hms.2.2⟩)
      | 'T' :: t => (parseTime t).map (fun hms =>
          ⟨digitsToNat [y1, y2, y3, y4], digitsToNat [m1, m2],
            digitsToNat [d1, d2], hms.1, hms.2.1, hms.2.2⟩)
      | _ => none
    else none
  | _ => none

/-- Embedding of `parseDateString` from the Home page module (lines 7-32):
a falsy input (absent or empty string) short-circuits to `null`; otherwise
`M/d/yyyy`, then `yyyy-MM-dd`, then the free-form `Date` constructor are
attempted in that order, the first valid instant winning; all three
failing gives `null` with a `console.warn`. -/
def parseDateString (dateString : Option String) : Option Instant :=
  match dateString with
  | none => none
  | some s =>
    if s = "" then none
    else
      match parseMdy s with
      | some parsed => some parsed
      | none =>
        match parseYmd s with
        | some parsed => some parsed
        | none => parseFreeform s

/-- The calendar day an instant falls on. -/
def Instant.calendarDay (d : Instant) : Nat × Nat × Nat :=
  (d.year, d.month, d.day)

/-- Sort key of an instant: the calendar fields packed in lexicographic
order.  For instants the parsers produce (month ≤ 12, day ≤ 31, hour ≤ 23,
minute and second ≤ 59) this agrees with chronological order. -/
def Instant.key (d : Instant) : Nat :=
  ((((d.year * 13 + d.month) * 32 + d.day) * 24 + d.hour) * 60 + d.minute) * 60 + d.second

/-- date-fns `compareDesc(a, b)`: negative when `a` is the later instant,
positive when `a` is earlier, zero when they coincide. -/
def compareDesc (a b : Instant) : Int :=
  if Instant.key b < Instant.key a then -1
  else if Instant.key a < Instant.key b then 1
  else 0

/-- An article annotated with its derived sort key, as built by the spread
`{ ...article, parsedDate: parseDateString(article.date) }`. -/
structure DatedArticle where
  article : NewsArticle
  parsedDate : Option Instant
deriving DecidableEq, Repr

/-- Placeholder instant for the modelled non-null assertion `parsedDate!`;
the filter before the sort guarantees it is never consulted. -/
def fallbackInstant : Instant :=
  ⟨0, 0, 0, 0, 0, 0⟩

/-- The comparator `(a, b) => compareDesc(a.parsedDate!, b.parsedDate!)`
read as the Boolean relation "`a` may come before `b`": a stable
JavaScript sort puts `a` before `b` exactly when the comparator is
non-positive. -/
def datedLE (a b : DatedArticle) : Bool :=
  decide (compareDesc (a.parsedDate.getD fallbackInstant) (b.parsedDate.getD fallbackInstant) ≤ 0)

/-- The `sortedArticles` pipeline of the Home page (lines 40-46): annotate
every article with its normalized instant, drop articles whose date fails
to parse, and sort with the `compareDesc` comparator.
`Array.prototype.sort` is stable, so the stable `List.mergeSort` models
it. -/
def sortedArticles (allArticles : List NewsArticle) : List DatedArticle :=
  ((allArticles.map (fun a => DatedArticle.mk a (parseDateString a.date))).filter
    (fun k => k.parsedDate.isSome)).mergeSort datedLE

/-- `sortedArticles.slice(0, 4)`: the featured set of the Home page. -/
def newestArticles (sorted : List DatedArticle) : List DatedArticle :=
  sorted.take 4

/-- `sortedArticles.slice(4)`: the remaining set of the Home page. -/
def remainingArticles (sorted : List DatedArticle) : List DatedArticle :=
  sorted.drop 4

/-- The size variants of `NewsArticleCard`. -/
inductive CardSize where
  | large
  | small
  | defaultSize
deriving DecidableEq, Repr

/-- `getImageDimensions` of `news-article-card.tsx` (lines 55-62). -/
def getImageDimensions : CardSize → Nat × Nat
  | .large => (800, 500)
  | .small => (400, 250)
  | .defaultSize => (600, 400)

/-- Whether `encodeURIComponent` leaves a character unescaped. -/
def isUnreservedURIChar (c : Char) : Bool :=
  c.isAlphanum || c == '-' || c == '_' || c == '.' || c == '!' || c == '~' ||
    c == '*' || c == Char.ofNat 39 || c == '(' || c == ')'

/-- The UTF-8 bytes of a character, as numbers below 256. -/
def utf8Bytes (c : Char) : List Nat :=
  let n := c.toNat
  if n < 128 then [n]
  else if n < 2048 then [192 + n / 64, 128 + n % 64]
  else if n < 65536 then [224 + n / 4096, 128 + n / 64 % 64, 128 + n % 64]
  else [240 + n / 262144, 128 + n / 4096 % 64, 128 + n / 64 % 64, 128 + n % 64]

/-- Uppercase hexadecimal digit character of a number below 16. -/
def hexDigitChar (n : Nat) : Char :=
  if n < 10 then Char.ofNat (48 + n) else Char.ofNat (55 + n)

/-- Percent-encoding of one byte. -/
def percentEncodeByte (b : Nat) : List Char :=
  ['%', hexDigitChar (b / 16), hexDigitChar (b % 16)]

/-- Model of JavaScript `encodeURIComponent`: unreserved characters pass
through, every other character is percent-encoded byte by byte in UTF-8
with uppercase hexadecimal digits. -/
def encodeURIComponent (s : String) : String :=
  ⟨s.data.flatMap (fun c =>
    if isUnreservedURIChar c then [c] else ((utf8Bytes c).map percentEncodeByte).flatten)⟩

/-- The deterministic placeholder address
`https://picsum.photos/seed/${encodeURIComponent(title)}/${width}/${height}`. -/
def placeholderUrl (title : String) (w h : Nat) : String :=
  "https://picsum.photos/seed/" ++ encodeURIComponent title ++ "/" ++ toString w ++ "/" ++ toString h

/-- The image-related React state slots of `NewsArticleCard`: `imageUrl`
and `imageError`. -/
structure CardImageState where
  imageUrl : String
  imageError : Bool
deriving DecidableEq, Repr

/-- The initial state: `useState(article.imageUrl || placeholder)` with
the error flag down. -/
def initialImageState (article : NewsArticle) (size : CardSize) : CardImageState :=
  { imageUrl := if article.imageUrl = "" then
      placeholderUrl article.title (getImageDimensions size).1 (getImageDimensions size).2
    else article.imageUrl,
    imageError := false }

/-- Embedding of `handleImageError` (`news-article-card.tsx`, lines
129-135): when the error flag is down, swap the image to the seeded
placeholder and raise the flag; when it is already up, do nothing. -/
def handleImageError (article : NewsArticle) (size : CardSize)
    (s : CardImageState) : CardImageState :=
  if s.imageError = false then
    { imageUrl := placeholderUrl article.title (getImageDimensions size).1
        (getImageDimensions size).2,
      imageError := true }
  else s

theorem scanLine_nil (cur : List Char) (q : Bool) :
    scanLine [] cur q = [jsTrim ⟨cur⟩] := rfl

theorem scanLine_quote_quote (rest : List Char) (cur : List Char) (q : Bool) :
    scanLine ('"' :: '"' :: rest) cur q = scanLine rest (cur ++ ['"']) q :=
  scanLine.eq_2 cur q rest

theorem scanLine_quote_toggle (rest : List Char) (cur : List Char) (q : Bool)
    (h : rest.head? ≠ some '"') :
    scanLine ('"' :: rest) cur q = scanLine rest cur (!q) :=
  scanLine.eq_3 cur q rest (fun rest1 hr => h (by rw [hr]; rfl))

theorem scanLine_comma (rest : List Char) (cur : List Char) :
    scanLine (',' :: rest) cur false = jsTrim ⟨cur⟩ :: scanLine rest [] false :=
  scanLine.eq_4 cur rest

theorem scanLine_comma_inQuotes (rest : List Char) (cur : List Char) :
    scanLine (',' :: rest) cur true = scanLine rest (cur ++ [',']) true :=
  scanLine.eq_5 cur true ',' rest
    (fun _ h _ => absurd h (by decide))
    (fun h => absurd h (by decide))
    (fun _ h => Bool.noConfusion h)

theorem scanLine_other (c : Char) (rest : List Char) (cur : List Char) (q : Bool)
    (hq : c ≠ '"') (hc : c ≠ ',') :
    scanLine (c :: rest) cur q = scanLine rest (cur ++ [c]) q :=
  scanLine.eq_5 cur q c rest
    (fun _ h _ => hq h)
    (fun h => hq h)
    (fun h _ => hc h)

theorem dropWhile_rdropWhile_self {α : Type} {p : α → Bool} {l : List α}
    (h : l.dropWhile p = l) : (l.rdropWhile p).dropWhile p = l.rdropWhile p := by
  rw [List.dropWhile_eq_self_iff] at h ⊢
  intro hl
  have hpre : l.rdropWhile p <+: l := List.rdropWhile_prefix p l
  have hlen : 0 < l.length := lt_of_lt_of_le hl hpre.length_le
  have hne : l.rdropWhile p ≠ [] := by
    intro hnil
    rw [hnil] at hl
    simp at hl
  have hh := hpre.head hne
  have h2 := h hlen
  rw [List.get_mk_zero] at h2
  rw [List.get_mk_zero, hh]
  exact h2

theorem trimChars_idem (cs : List Char) : trimChars (trimChars cs) = trimChars cs := by
  unfold trimChars
  rw [dropWhile_rdropWhile_self (List.dropWhile_idempotent _ _),
    List.rdropWhile_idempotent]

theorem jsTrim_idem (s : String) : jsTrim (jsTrim s) = jsTrim s :=
  congrArg String.mk (trimChars_idem s.data)

/-- Every field emitted by the `parseCSV` scan loop is the trim of some raw
accumulated text. -/
theorem scanLine_mem_shape (cs cur : List Char) (q : Bool) :
    ∀ f ∈ scanLine cs cur q, ∃ raw : String, f = jsTrim raw := by
  induction cs, cur, q using scanLine.induct with
  | case1 cur q =>
    intro f hf
    rw [scanLine_nil, List.mem_singleton] at hf
    exact ⟨⟨cur⟩, hf⟩
  | case2 rest cur q ih =>
    intro f hf
    rw [scanLine_quote_quote] at hf
    exact ih f hf
  | case3 rest cur q h ih =>
    intro f hf
    rw [scanLine.eq_3 cur q rest h] at hf
    exact ih f hf
  | case4 rest cur ih =>
    intro f hf
    rw [scanLine_comma, List.mem_cons] at hf
    rcases hf with hf | hf
    · exact ⟨⟨cur⟩, hf⟩
    · exact ih f hf
  | case5 c rest cur q h1 h2 h3 ih =>
    intro f hf
    rw [scanLine.eq_5 cur q c rest h1 h2 h3] at hf
    exact ih f hf

/-- The scan loop always emits at least one field. -/
theorem scanLine_ne_nil (cs cur : List Char) (q : Bool) :
    scanLine cs cur q ≠ [] := by
  induction cs, cur, q using scanLine.induct with
  | case1 cur q => simp [scanLine_nil]
  | case2 rest cur q ih => rw [scanLine_quote_quote]; exact ih
  | case3 rest cur q h ih => rw [scanLine.eq_3 cur q rest h]; exact ih
  | case4 rest cur ih => simp [scanLine_comma]
  | case5 c rest cur q h1 h2 h3 ih => rw [scanLine.eq_5 cur q c rest h1 h2 h3]; exact ih

/-- Every field in every row that `parseCSV` produces is already trimmed. -/
theorem parseCSV_field_trimmed (s : String) (row : List String) (f : String)
    (hrow : row ∈ parseCSV s) (hf : f ∈ row) : jsTrim f = f := by
  obtain ⟨line, _, hline⟩ := List.mem_map.mp hrow
  obtain ⟨raw, hraw⟩ := scanLine_mem_shape line [] false f (hline ▸ hf)
  rw [hraw]
  exact jsTrim_idem raw

/-- A run of characters that are neither quotes nor commas passes through
the scan into the current field unchanged, whatever the quote flag. -/
theorem scanLine_append_plain : ∀ (a rest cur : List Char) (q : Bool),
    (∀ c ∈ a, c ≠ '"' ∧ c ≠ ',') →
    scanLine (a ++ rest) cur q = scanLine rest (cur ++ a) q
  | [], rest, cur, q, _ => by simp
  | c :: a', rest, cur, q, h => by
    have hc := h c (List.mem_cons_self c a')
    rw [List.cons_append, scanLine_other c _ cur q hc.1 hc.2,
      scanLine_append_plain a' rest (cur ++ [c]) q
        (fun x hx => h x (List.mem_cons_of_mem c hx))]
    simp

/-- C1: in `parseCSV`'s single left-to-right scan of a line, a doubled
quote character seen while inside a quoted field emits exactly one literal
quote character into the current field and does not toggle the
inside-quoted-field flag; any other quote character toggles the flag;
consequently a quoted field with an embedded doubled quote decodes to the
field text with one literal quote character at that position. -/
theorem parseCSV_doubled_quote_inside :
    (∀ rest cur : List Char,
      scanLine ('"' :: '"' :: rest) cur true = scanLine rest (cur ++ ['"']) true) ∧
    (∀ (rest cur : List Char) (q : Bool), rest.head? ≠ some '"' →
      scanLine ('"' :: rest) cur q = scanLine rest cur (!q)) ∧
    (∀ a b : List Char, a ≠ [] → (∀ c ∈ a, c ≠ '"' ∧ c ≠ ',') →
      (∀ c ∈ b, c ≠ '"' ∧ c ≠ ',') →
      scanLine ('"' :: (a ++ '"' :: '"' :: (b ++ ['"']))) [] false
        = [jsTrim ⟨a ++ '"' :: b⟩]) := by
  refine ⟨fun rest cur => scanLine_quote_quote rest cur true,
    fun rest cur q h => scanLine_quote_toggle rest cur q h, ?_⟩
  intro a b ha hA hB
  obtain ⟨c, a', rfl⟩ := List.exists_cons_of_ne_nil ha
  have hc := hA c (List.mem_cons_self c a')
  have h1 : scanLine ('"' :: ((c :: a') ++ ('"' :: '"' :: (b ++ ['"'])))) [] false
      = scanLine ((c :: a') ++ ('"' :: '"' :: (b ++ ['"']))) [] true := by
    apply scanLine_quote_toggle
    simp [hc.1]
  rw [h1, scanLine_append_plain _ _ _ _ hA, List.nil_append,
    scanLine_quote_quote, scanLine_append_plain _ _ _ _ hB,
    scanLine_quote_toggle [] _ true (by simp), scanLine_nil]
  simp

/-- Witness: the toggle and the embedded-doubled-quote decoding at
concrete inputs. -/
theorem parseCSV_doubled_quote_inside_witness :
    scanLine ['"', 'x'] ['y'] true = scanLine ['x'] ['y'] false ∧
    scanLine ('"' :: (['a'] ++ '"' :: '"' :: (['b'] ++ ['"']))) [] false
      = [jsTrim ⟨['a'] ++ '"' :: ['b']⟩] :=
  ⟨parseCSV_doubled_quote_inside.2.1 ['x'] ['y'] true (by decide),
   parseCSV_doubled_quote_inside.2.2 ['a'] ['b'] (by decide) (by decide) (by decide)⟩

/-- C9: the scan applies the doubled-quote rule regardless of the
inside-quoted-field flag — two consecutive quote characters outside a
quoted field also emit one literal quote character and do not enter quoted
mode — so the empty quoted field `""` decodes to the one-character quote
string, not to the empty string. -/
theorem parseCSV_doubled_quote_outside :
    (∀ rest cur : List Char,
      scanLine ('"' :: '"' :: rest) cur false = scanLine rest (cur ++ ['"']) false) ∧
    parseCSV "\"\"" = [["\""]] :=
  ⟨fun rest cur => scanLine_quote_quote rest cur false, by decide⟩

/-- C10: `parseCSV` parses newline-separated lines independently: it
emits one row per line, the scan of every line starts with an empty field
and the quote flag down, end of line emits the accumulated field (trimmed)
even inside an unterminated quoted field, the flag never carries into the
next line, and every line — the empty one included — yields a row of at
least one field. -/
theorem parseCSV_per_line :
    (∀ s : String, (parseCSV s).length = (splitLines (trimChars s.data)).length) ∧
    (∀ (cur : List Char) (q : Bool), scanLine [] cur q = [jsTrim ⟨cur⟩]) ∧
    (∀ (s : String) (row : List String), row ∈ parseCSV s → 1 ≤ row.length) ∧
    parseCSV "\"a\nb,c" = [["a"], ["b", "c"]] := by
  refine ⟨fun s => List.length_map _ _, scanLine_nil, ?_, by decide⟩
  intro s row hrow
  obtain ⟨line, _, hline⟩ := List.mem_map.mp hrow
  exact hline ▸ List.length_pos.mpr (scanLine_ne_nil line [] false)

/-- Witness: a one-line input yields one row of one field. -/
theorem parseCSV_per_line_witness :
    (["x"] ∈ parseCSV "x") ∧ 1 ≤ (["x"] : List String).length :=
  ⟨by decide, parseCSV_per_line.2.2.1 "x" ["x"] (by decide)⟩

/-- Positional reads from a `parseCSV` row are already trimmed (the scan
trims every field, and the out-of-range default is the empty string). -/
theorem rowGet_trimmed (s : String) (row : List String) (hrow : row ∈ parseCSV s)
    (i : Nat) : jsTrim (rowGet row i) = rowGet row i := by
  by_cases h : i < row.length
  · have hmem : rowGet row i ∈ row := by
      unfold rowGet
      rw [List.getD_eq_getElem?_getD, List.getElem?_eq_getElem h]
      exact List.getElem_mem h
    exact parseCSV_field_trimmed s row _ hrow hmem
  · have hdef : rowGet row i = "" := by
      unfold rowGet
      rw [List.getD_eq_getElem?_getD, List.getElem?_eq_none (Nat.le_of_not_lt h)]
      rfl
    rw [hdef]
    rfl

/-- Whatever the row, the constructed article's title and url fall back to
non-empty defaults, so they are never empty. -/
theorem rowToArticle_title_url_ne (row : List String) :
    (rowToArticle row).title ≠ "" ∧ (rowToArticle row).url ≠ "" := by
  constructor
  · by_cases h : rowGet row 0 = ""
    · simp only [rowToArticle, h, if_pos]
      decide
    · simp only [rowToArticle, if_neg h]
      exact h
  · by_cases h : rowGet row 4 = ""
    · simp only [rowToArticle, h, if_pos]
      decide
    · simp only [rowToArticle, if_neg h]
      exact h

/-- C2: `getNews` discards the first parsed row unconditionally as a
header; each later row yields exactly one article — columns 0..5 becoming
title, date, imageUrl, summary, url and source — precisely when the
trimmed fields at positions 0 and 4 are non-empty (a failing row is
skipped with only a diagnostic); and every article in the output has a
non-empty title and a non-empty url. -/
theorem getNews_row_mapping :
    (∀ (r r' : List String) (rows : List (List String)),
      rowsToArticles (r :: rows) = rowsToArticles (r' :: rows)) ∧
    (∀ body : String, getNews (.response true body) =
      ((parseCSV body).drop 1).filterMap (fun row =>
        if jsTrim (rowGet row 0) ≠ "" ∧ jsTrim (rowGet row 4) ≠ "" then
          some { title := rowGet row 0,
                 summary := if rowGet row 3 = "" then "No Summary" else rowGet row 3,
                 url := rowGet row 4,
                 source := if rowGet row 5 = "" then "Unknown Source" else rowGet row 5,
                 category := "General",
                 imageUrl := rowGet row 2,
                 date := if rowGet row 1 = "" then none else some (rowGet row 1) }
        else none)) ∧
    (∀ (body : String) (a : NewsArticle), a ∈ getNews (.response true body) →
      a.title ≠ "" ∧ a.url ≠ "") := by
  refine ⟨fun r r' rows => rfl, ?_, ?_⟩
  · intro body
    show rowsToArticles (parseCSV body) = _
    unfold rowsToArticles
    apply List.filterMap_congr
    intro row hrowd
    have hrow : row ∈ parseCSV body := List.mem_of_mem_drop hrowd
    rw [rowGet_trimmed body row hrow 0, rowGet_trimmed body row hrow 4]
    by_cases hc : rowGet row 0 ≠ "" ∧ rowGet row 4 ≠ ""
    · rw [if_pos hc, if_pos hc]
      unfold rowToArticle
      rw [if_neg hc.1, if_neg hc.2]
    · rw [if_neg hc, if_neg hc]
  · intro body a ha
    have ha' : a ∈ rowsToArticles (parseCSV body) := ha
    unfold rowsToArticles at ha'
    obtain ⟨row, _, hrow⟩ := List.mem_filterMap.mp ha'
    by_cases hc : rowGet row 0 ≠ "" ∧ rowGet row 4 ≠ ""
    · rw [if_pos hc] at hrow
      obtain rfl := Option.some.inj hrow
      exact rowToArticle_title_url_ne row
    · rw [if_neg hc] at hrow
      exact Option.noConfusion hrow

/-- Witness: the article ingested from a concrete one-data-row body has a
non-empty title and url. -/
theorem getNews_row_mapping_witness :
    ({ title := "Title", summary := "Sum", url := "http://x", source := "Src",
       category := "General", imageUrl := "img",
       date := some "5/4/2025" } : NewsArticle).title ≠ "" ∧
    ({ title := "Title", summary := "Sum", url := "http://x", source := "Src",
       category := "General", imageUrl := "img",
       date := some "5/4/2025" } : NewsArticle).url ≠ "" :=
  getNews_row_mapping.2.2 "h\nTitle,5/4/2025,img,Sum,http://x,Src" _ (by decide)

/-- C6: a failed feed fetch — a thrown network error or a response whose
status is not ok — makes `getNews` resolve to the empty article list
(diagnostic only) instead of propagating an error to the consumer. -/
theorem getNews_failure_empty :
    getNews .networkError = [] ∧ ∀ body : String, getNews (.response false body) = [] :=
  ⟨rfl, fun _ => rfl⟩

/-- C3: the normalizer returns the unparseable signal for an absent input
without attempting any format; otherwise `M/d/yyyy`, then `yyyy-MM-dd`,
then the generic free-form instant parse are tried in strict priority
order, the first valid instant winning; all three attempts failing yields
the unparseable signal with only a diagnostic. -/
theorem parseDateString_priority :
    parseDateString none = none ∧
    (∀ (s : String) (d : Instant), parseMdy s = some d →
      parseDateString (some s) = some d) ∧
    (∀ (s : String) (d : Instant), parseMdy s = none → parseYmd s = some d →
      parseDateString (some s) = some d) ∧
    (∀ s : String, parseMdy s = none → parseYmd s = none →
      parseDateString (some s) = parseFreeform s) ∧
    (∀ s : String, parseMdy s = none → parseYmd s = none → parseFreeform s = none →
      parseDateString (some s) = none) := by
  refine ⟨rfl, ?_, ?_, ?_, ?_⟩
  · intro s d hm
    by_cases hs : s = ""
    · subst hs
      rw [show parseMdy "" = none from rfl] at hm
      exact Option.noConfusion hm
    · simp only [parseDateString]
      rw [if_neg hs, hm]
  · intro s d hm hy
    by_cases hs : s = ""
    · subst hs
      rw [show parseYmd "" = none from rfl] at hy
      exact Option.noConfusion hy
    · simp only [parseDateString]
      rw [if_neg hs, hm, hy]
  · intro s hm hy
    by_cases hs : s = ""
    · subst hs
      rfl
    · simp only [parseDateString]
      rw [if_neg hs, hm, hy]
  · intro s hm hy hf
    by_cases hs : s = ""
    · subst hs
      rfl
    · simp only [parseDateString]
      rw [if_neg hs, hm, hy, hf]

/-- Witness: the priority cascade at three concrete inputs, one per
outcome. -/
theorem parseDateString_priority_witness :
    parseDateString (some "5/4/2025") = some ⟨2025, 5, 4, 0, 0, 0⟩ ∧
    parseDateString (some "2025-05-04") = some ⟨2025, 5, 4, 0, 0, 0⟩ ∧
    parseDateString (some "not-a-date") = none :=
  ⟨parseDateString_priority.2.1 "5/4/2025" _ (by decide),
   parseDateString_priority.2.2.1 "2025-05-04" _ (by decide) (by decide),
   parseDateString_priority.2.2.2.2 "not-a-date" (by decide) (by decide) (by decide)⟩

/-- C7: the inputs `"5/4/2025"`, `"2025-05-04"` and
`"2025-05-04 20:50:13"` all normalize to valid instants on the calendar
day May 4, 2025. -/
theorem parseDateString_same_day :
    parseDateString (some "5/4/2025") = some ⟨2025, 5, 4, 0, 0, 0⟩ ∧
    parseDateString (some "2025-05-04") = some ⟨2025, 5, 4, 0, 0, 0⟩ ∧
    parseDateString (some "2025-05-04 20:50:13") = some ⟨2025, 5, 4, 20, 50, 13⟩ ∧
    (parseDateString (some "5/4/2025")).map Instant.calendarDay = some (2025, 5, 4) ∧
    (parseDateString (some "2025-05-04")).map Instant.calendarDay = some (2025, 5, 4) ∧
    (parseDateString (some "2025-05-04 20:50:13")).map Instant.calendarDay
      = some (2025, 5, 4) := by
  decide

/-- The comparator relation holds exactly when the left entry's instant is
at least the right entry's. -/
theorem datedLE_iff (a b : DatedArticle) : datedLE a b = true ↔
    (b.parsedDate.getD fallbackInstant).key ≤ (a.parsedDate.getD fallbackInstant).key := by
  simp only [datedLE, decide_eq_true_eq]
  unfold compareDesc
  split
  · rename_i h
    constructor <;> intro <;> omega
  · split
    · rename_i h1 h2
      constructor <;> intro <;> omega
    · rename_i h1 h2
      constructor <;> intro <;> omega

theorem datedLE_trans (a b c : DatedArticle) (h1 : datedLE a b) (h2 : datedLE b c) :
    datedLE a c :=
  (datedLE_iff a c).mpr (Nat.le_trans ((datedLE_iff b c).mp h2) ((datedLE_iff a b).mp h1))

theorem datedLE_total (a b : DatedArticle) : datedLE a b || datedLE b a := by
  rw [Bool.or_eq_true]
  rcases Nat.le_total ((b.parsedDate.getD fallbackInstant).key)
      ((a.parsedDate.getD fallbackInstant).key) with h | h
  · exact Or.inl ((datedLE_iff a b).mpr h)
  · exact Or.inr ((datedLE_iff b a).mpr h)

/-- The sort is a permutation of the annotated, filtered feed. -/
theorem sortedArticles_perm (as : List NewsArticle) :
    List.Perm (sortedArticles as)
      ((as.map (fun a => DatedArticle.mk a (parseDateString a.date))).filter
        (fun k => k.parsedDate.isSome)) :=
  List.mergeSort_perm _ _

/-- Projected back to articles, the sorted view is a permutation of the
feed restricted to articles with a parseable date. -/
theorem sortedArticles_article_perm (as : List NewsArticle) :
    List.Perm ((sortedArticles as).map DatedArticle.article)
      (as.filter (fun a => (parseDateString a.date).isSome)) := by
  have h := (sortedArticles_perm as).map DatedArticle.article
  rw [List.filter_map, List.map_map] at h
  simpa [Function.comp_def] using h

/-- C4: the ordered view contains exactly the articles whose date parses
to a valid instant (unparseable-date articles are excluded, not erred on),
is sorted descending by the normalized instant (newest first), and is
stable: entries with identical normalized instants retain their feed
order. -/
theorem sortedArticles_spec :
    (∀ as : List NewsArticle, List.Perm ((sortedArticles as).map DatedArticle.article)
      (as.filter (fun a => (parseDateString a.date).isSome))) ∧
    (∀ as : List NewsArticle, (sortedArticles as).Pairwise (fun x y =>
      (y.parsedDate.getD fallbackInstant).key ≤ (x.parsedDate.getD fallbackInstant).key)) ∧
    (∀ (as : List NewsArticle) (x y : DatedArticle),
      List.Sublist [x, y]
        ((as.map (fun a => DatedArticle.mk a (parseDateString a.date))).filter
          (fun k => k.parsedDate.isSome)) →
      x.parsedDate = y.parsedDate →
      List.Sublist [x, y] (sortedArticles as)) := by
  refine ⟨sortedArticles_article_perm, ?_, ?_⟩
  · intro as
    have h := List.sorted_mergeSort datedLE_trans datedLE_total
      ((as.map (fun a => DatedArticle.mk a (parseDateString a.date))).filter
        (fun k => k.parsedDate.isSome))
    exact h.imp (fun hxy => (datedLE_iff _ _).mp hxy)
  · intro as x y hsub hkey
    exact List.pair_sublist_mergeSort datedLE_trans datedLE_total
      ((datedLE_iff x y).mpr (by rw [hkey])) hsub

/-- Witness: two concrete same-instant articles, listed before an
unparseable-date one, stay adjacent in feed order in the sorted view. -/
theorem sortedArticles_spec_witness :
    List.Sublist
    [⟨{ title := "A", summary := "", url := "u1", source := "", category := "",
        imageUrl := "", date := some "5/4/2025" }, some ⟨2025, 5, 4, 0, 0, 0⟩⟩,
     ⟨{ title := "B", summary := "", url := "u2", source := "", category := "",
        imageUrl := "", date := some "5/4/2025" }, some ⟨2025, 5, 4, 0, 0, 0⟩⟩]
      (sortedArticles
        [{ title := "A", summary := "", url := "u1", source := "", category := "",
           imageUrl := "", date := some "5/4/2025" },
         { title := "B", summary := "", url := "u2", source := "", category := "",
           imageUrl := "", date := some "5/4/2025" },
         { title := "C", summary := "", url := "u3", source := "", category := "",
           imageUrl := "", date := some "nope" }]) :=
  sortedArticles_spec.2.2 _ _ _ (by decide) (by decide)

/-- C5: the featured set is exactly the first `min 4 length` entries of
the sorted list and the remaining set is exactly the entries from index 4
on, both in sorted order; the featured set has at most 4 entries, and the
two lengths sum to the number of date-parseable articles. -/
theorem featured_remaining_partition :
    (∀ sorted : List DatedArticle,
      newestArticles sorted = sorted.take 4 ∧
      remainingArticles sorted = sorted.drop 4 ∧
      newestArticles sorted ++ remainingArticles sorted = sorted ∧
      (newestArticles sorted).length = min 4 sorted.length ∧
      (newestArticles sorted).length ≤ 4) ∧
    (∀ as : List NewsArticle,
      (newestArticles (sortedArticles as)).length
        + (remainingArticles (sortedArticles as)).length
        = (as.filter (fun a => (parseDateString a.date).isSome)).length) := by
  constructor
  · intro sorted
    refine ⟨rfl, rfl, List.take_append_drop 4 sorted, List.length_take 4 sorted, ?_⟩
    show (sorted.take 4).length ≤ 4
    rw [List.length_take]
    exact Nat.min_le_left 4 _
  · intro as
    have h := (sortedArticles_article_perm as).length_eq
    rw [List.length_map] at h
    unfold newestArticles remainingArticles
    rw [List.length_take, List.length_drop, ← h]
    omega

/-- C8: an image load failure with the fallback flag down triggers exactly
one swap, to the deterministic placeholder address seeded by the article
title and the size's target dimensions, and raises the fallback flag; with
the flag up, further failure events change nothing, so the handler never
retries. -/
theorem handleImageError_spec :
    (∀ (a : NewsArticle) (size : CardSize) (s : CardImageState),
      s.imageError = false →
      handleImageError a size s =
        { imageUrl := placeholderUrl a.title (getImageDimensions size).1
            (getImageDimensions size).2,
          imageError := true }) ∧
    (∀ (a : NewsArticle) (size : CardSize) (s : CardImageState),
      s.imageError = true → handleImageError a size s = s) ∧
    (∀ (a : NewsArticle) (size : CardSize) (s : CardImageState),
      handleImageError a size (handleImageError a size s)
        = handleImageError a size s) := by
  refine ⟨?_, ?_, ?_⟩
  · intro a size s h
    unfold handleImageError
    rw [if_pos h]
  · intro a size s h
    unfold handleImageError
    rw [if_neg (by simp [h])]
  · intro a size s
    unfold handleImageError
    by_cases h : s.imageError = false
    · rw [if_pos h]
      simp
    · rw [if_neg h, if_neg h]

/-- Witness: one failure on a fresh card swaps to the seeded placeholder;
a second failure leaves the state unchanged. -/
theorem handleImageError_spec_witness :
    handleImageError
      { title := "T", summary := "", url := "u", source := "", category := "",
        imageUrl := "i", date := none } .large
      { imageUrl := "i", imageError := false }
      = { imageUrl := placeholderUrl "T" 800 500, imageError := true } ∧
    handleImageError
      { title := "T", summary := "", url := "u", source := "", category := "",
        imageUrl := "i", date := none } .large
      { imageUrl := placeholderUrl "T" 800 500, imageError := true }
      = { imageUrl := placeholderUrl "T" 800 500, imageError := true } :=
  ⟨handleImageError_spec.1 _ .large _ rfl,
   handleImageError_spec.2.1 _ .large _ rfl⟩

end Opinion
